import Mathlib

/-!
Verification of the XBRL footnote-text extraction pipeline
(`xbrl_footnote_text.ipynb`).

The notebook is a linear pandas pipeline:
 1. `download_xbrl_fin_notes year month` — conditional HTTP download of a
    monthly archive plus zip extraction (skipped when the archive file
    already exists locally);
 2. load `sub.tsv` and `txt.tsv`, projecting each to a fixed column subset;
 3. filter submissions by a form-type allow-list, inner-merge with the text
    observations on the shared `adsh` key, filter the merged rows by a
    footnote-tag allow-list;
 4. write the result as a tab-separated file;
 5. count words per footnote with the regular expression `\b[a-zA-Z'-]+\b`.

Tables are embedded as ordered lists of records whose fields are strings
(the pipeline never interprets a field numerically).  The pandas inner
merge on a key preserves the left frame's row order with each left row's
matching right rows in their original order, which is how `df_txt_filtered`
is defined below.
-/

/-- Submission record: the projection of a `sub.tsv` row to the columns
`['adsh','cik','name','sic','form','period','filed']` kept by the notebook
(`df_sub = df_sub[['adsh','cik','name','sic','form','period','filed']]`). -/
structure SubRecord where
  adsh : String
  cik : String
  name : String
  sic : String
  form : String
  period : String
  filed : String
deriving DecidableEq, Repr

/-- Text observation record: the projection of a `txt.tsv` row to the columns
`['adsh','tag','qtrs','ddate','value']` kept by the notebook
(`df_txt = df_txt[['adsh','tag','qtrs','ddate','value']]`). -/
structure TxtRecord where
  adsh : String
  tag : String
  qtrs : String
  ddate : String
  value : String
deriving DecidableEq, Repr

/-- Joined record produced by `df_sub_filtered.merge(df_txt, on='adsh')`:
the seven retained submission columns followed by the non-key observation
columns, the shared key `adsh` appearing exactly once. -/
structure FnRecord where
  adsh : String
  cik : String
  name : String
  sic : String
  form : String
  period : String
  filed : String
  tag : String
  qtrs : String
  ddate : String
  value : String
deriving DecidableEq, Repr

/-- Combine one submission row with one matching observation row, as the
pandas merge does: submission columns first, then the observation's non-key
columns; `adsh` is taken from the (equal) shared key. -/
def joinRow (s : SubRecord) (t : TxtRecord) : FnRecord :=
  { adsh := s.adsh, cik := s.cik, name := s.name, sic := s.sic,
    form := s.form, period := s.period, filed := s.filed,
    tag := t.tag, qtrs := t.qtrs, ddate := t.ddate, value := t.value }

/-- `df_sub_filtered = df_sub[df_sub['form'].isin(form_types)]`: retain the
submissions whose form type is a member of the allow-list, in order. -/
def df_sub_filtered (df_sub : List SubRecord) (form_types : List String) :
    List SubRecord :=
  df_sub.filter fun s => decide (s.form ∈ form_types)

/-- `df_txt_filtered = df_sub_filtered.merge(df_txt, on='adsh')`: inner join
on the accession key.  Pandas emits, for each left row in left order, the
matching right rows in their original order (many-to-one, no sorting). -/
def df_txt_filtered (dsf : List SubRecord) (df_txt : List TxtRecord) :
    List FnRecord :=
  dsf.flatMap fun s =>
    (df_txt.filter fun t => t.adsh == s.adsh).map (joinRow s)

/-- `df_fn = df_txt_filtered[df_txt_filtered['tag'].isin(footnote_tags)]`
(the trailing `reset_index(drop=True)` does not change the data): retain the
joined rows whose tag is in the footnote-tag allow-list. -/
def df_fn (joined : List FnRecord) (footnote_tags : List String) :
    List FnRecord :=
  joined.filter fun r => decide (r.tag ∈ footnote_tags)

/-- The whole filter/merge/filter pipeline of the notebook, the spec's
`buildFootnoteTable(submissions, observations, formTypes, tags)`. -/
def buildFootnoteTable (df_sub : List SubRecord) (df_txt : List TxtRecord)
    (form_types footnote_tags : List String) : List FnRecord :=
  df_fn (df_txt_filtered (df_sub_filtered df_sub form_types) df_txt)
    footnote_tags

/-!  Word counter: `count_words` applies `re.findall` with the compiled
regular expression `\b[a-zA-Z'-]+\b` and returns the number of matches.
The scanner below is a direct model of the `re` engine on this pattern:
at each position, if a word boundary holds and the next character is in
the class `[a-zA-Z'-]`, the engine greedily takes the maximal run of class
characters and then backtracks to the longest nonempty prefix of the run
whose end is again a word boundary; on success the scan resumes after the
match, on failure at the next character.  `\b` separates a word character
(`[a-zA-Z0-9_]` for this ASCII pattern) from a non-word character or the
string edge. -/

/-- Apostrophe character (code 39), a member of the regex character class. -/
def apos : Char := Char.ofNat 39

/-- Word character for the `\b` assertion: `[a-zA-Z0-9_]`. -/
def isWordChar (c : Char) : Bool :=
  c.isAlpha || c.isDigit || c == (Char.ofNat 95)

/-- Character class `[a-zA-Z'-]` of the word regex. -/
def isTokChar (c : Char) : Bool :=
  c.isAlpha || c == apos || c == '-'

/-- Word-character test at a possibly absent position (string edge counts
as non-word). -/
def wordCharOpt : Option Char → Bool
  | none => false
  | some c => isWordChar c

/-- Backtracking search for the longest nonempty prefix of the greedy run
that ends on a word boundary: the first argument is the run reversed, the
second the character just after the candidate end.  Returns the prefix
length. -/
def findSplitRev : List Char → Option Char → Option Nat
  | [], _ => none
  | c :: rs, next =>
    if isWordChar c != wordCharOpt next then some (rs.length + 1)
    else findSplitRev rs (some c)

/-- Length of the match the regex engine produces at the current position
(after the leading `\b` already held), if any: greedy run of class
characters, then backtrack until the trailing `\b` holds. -/
def matchLen (l : List Char) : Option Nat :=
  let run := l.takeWhile isTokChar
  findSplitRev run.reverse (l.drop run.length).head?

/-- Scan of `re.findall` over the remaining characters; the second argument
is the character preceding the current position (`none` at the start),
needed for the leading `\b`.  Returns the number of matches.  The `fuel`
argument only makes the recursion structural: every step consumes at least
one character, so any fuel of at least the list's length yields the scan's
value (theorem `scanCount_fuel_irrel` below). -/
def scanCount (fuel : Nat) (prev : Option Char) (l : List Char) : Nat :=
  match fuel, l with
  | _, [] => 0
  | 0, _ => 0
  | fuel + 1, c :: cs =>
    if isTokChar c && (wordCharOpt prev != isWordChar c) then
      match matchLen (c :: cs) with
      | some n =>
        1 + scanCount fuel ((c :: cs).take n).getLast? (cs.drop (n - 1))
      | none => scanCount fuel (some c) cs
    else scanCount fuel (some c) cs

/-- `count_words(text)`: the number of matches of `\b[a-zA-Z'-]+\b` in the
input string (`len(rx_word.findall(text))`). -/
def count_words (text : String) : Nat :=
  scanCount text.data.length none text.data

/-!  Fetcher: `download_xbrl_fin_notes(year, month)`.  The function builds
the archive name, and when the archive file does not exist locally issues
one HTTP request; on status 200 it writes the archive and extracts it into
a directory, otherwise the body of `if req.status_code == 200:` is simply
skipped (the source has no `else` branch and no `raise` statement) and the
function returns `None`.  The filesystem is abstracted to whether the
archive file and the extraction directory exist, and the network to the
status code the server would answer with; a Python `raise` would be
`Except.error` carrying the status. -/

/-- Abstract local filesystem state seen by the fetcher: whether the
archive file `{year}_{month:02}_notes.zip` exists and whether its
extraction directory exists. -/
structure FetchState where
  archiveExists : Bool
  dirExists : Bool
deriving DecidableEq, Repr

/-- Observable effects of one `download_xbrl_fin_notes` call: number of
HTTP requests issued, whether the archive file was written, whether the
archive was extracted. -/
structure FetchTrace where
  requests : Nat
  wroteArchive : Bool
  extracted : Bool
deriving DecidableEq, Repr

/-- One call of `download_xbrl_fin_notes` for a fixed (year, month): if the
archive file exists the body does nothing; otherwise one request is made
and only a 200 status leads to the write and the extraction.  Every path
of the source returns normally (`Except.ok`, the Python `None`): the
source contains no `raise`, so `Except.error` is never produced. -/
def download_xbrl_fin_notes (status : Nat) (st : FetchState) :
    Except Nat (FetchState × FetchTrace) :=
  if st.archiveExists then
    .ok (st, ⟨0, false, false⟩)
  else if status == 200 then
    .ok (⟨true, true⟩, ⟨1, true, true⟩)
  else
    .ok (st, ⟨1, false, false⟩)

/-- Two consecutive calls of `download_xbrl_fin_notes` for the same
(year, month), the second starting from the state the first left behind.
Returns the two traces and the final state (the `error` branches are
unreachable: the function always returns `ok`). -/
def fetchTwice (status1 status2 : Nat) (st : FetchState) :
    FetchTrace × FetchTrace × FetchState :=
  match download_xbrl_fin_notes status1 st with
  | .ok (st1, t1) =>
    match download_xbrl_fin_notes status2 st1 with
    | .ok (st2, t2) => (t1, t2, st2)
    | .error _ => (t1, ⟨0, false, false⟩, st1)
  | .error _ => (⟨0, false, false⟩, ⟨0, false, false⟩, st)

/-!  Column bookkeeping.  The notebook projects `sub.tsv` to seven columns
and `txt.tsv` to five; the pandas merge on `'adsh'` lays out the left
frame's columns first and then the right frame's non-key columns, and
`df_fn['fn_length'] = ...` appends the derived column at the end. -/

/-- Columns kept from `sub.tsv`:
`df_sub[['adsh','cik','name','sic','form','period','filed']]`. -/
def subColumns : List String :=
  ["adsh", "cik", "name", "sic", "form", "period", "filed"]

/-- Columns kept from `txt.tsv`:
`df_txt[['adsh','tag','qtrs','ddate','value']]`. -/
def txtColumns : List String :=
  ["adsh", "tag", "qtrs", "ddate", "value"]

/-- Columns of `df_sub_filtered.merge(df_txt, on='adsh')`: the left
columns, then the right columns with the shared key removed. -/
def mergedColumns : List String :=
  subColumns ++ txtColumns.filter (fun c => c != "adsh")

/-- Field values of a joined row in the merged column order. -/
def FnRecord.toFields (r : FnRecord) : List (List Char) :=
  [r.adsh.data, r.cik.data, r.name.data, r.sic.data, r.form.data,
   r.period.data, r.filed.data, r.tag.data, r.qtrs.data, r.ddate.data,
   r.value.data]

/-!  Writer and Table Loader.  The source delegates both to the pandas
library (`df_fn.to_csv(path, sep="\t", index=False)` and
`pd.read_csv(path, sep='\t')` followed by a column projection), whose
implementation is not part of this repository. -/

/-- Tab character, the field separator of the `.tsv` format. -/
def tabChar : Char := Char.ofNat 9

/-- Newline character, the row separator of the `.tsv` format. -/
def nlChar : Char := Char.ofNat 10

/-- Split a character list at every occurrence of the separator; the
separator occurrences are consumed, and `n` separators yield `n + 1`
(possibly empty) segments. -/
def splitOnChar (sep : Char) : List Char → List (List Char)
  | [] => [[]]
  | c :: cs =>
    if c == sep then [] :: splitOnChar sep cs
    else
      match splitOnChar sep cs with
      | [] => [[c]]
      | f :: rest => (c :: f) :: rest

/-- Join segments with a single separator character between consecutive
segments. -/
def joinSep (sep : Char) : List (List Char) → List Char
  | [] => []
  | [f] => f
  | f :: fs => f ++ sep :: joinSep sep fs

/-- Modelled from the spec: the Writer (`df_fn.to_csv(path, sep="\t",
index=False)`, whose pandas implementation is not in this repository)
"serializes the ordered sequence to a tab-delimited file with a header row
listing all attribute names in a fixed order".  Rows are given as lists of
fields; the header row holds the column names. -/
def writeTable (columns : List (List Char)) (rows : List (List (List Char))) :
    List Char :=
  joinSep nlChar ((columns :: rows).map (joinSep tabChar))

/-- Modelled from the spec: the Table Loader (`pd.read_csv(path, sep='\t')`
plus column projection, whose pandas implementation is not in this
repository) "parses a tab-delimited file with a header row into a
relational structure", "projects (discards all columns except) exactly the
requested column names" and "fails with a `SchemaError` if a requested
column is absent".  Every field is kept as text.  Rows come back as lists
of fields in the requested column order. -/
def loadTable (cols : List (List Char)) (content : List Char) :
    Except String (List (List (List Char))) :=
  match splitOnChar nlChar content with
  | [] => .error "empty file"
  | headerLine :: bodyLines =>
    let header := splitOnChar tabChar headerLine
    match cols.mapM (fun c => header.findIdx? (fun h => h == c)) with
    | none => .error "SchemaError"
    | some idxs =>
      .ok (bodyLines.map (fun line =>
        let fields := splitOnChar tabChar line
        idxs.map (fun i => fields.getD i [])))

/-- A field is clean when it contains neither the field separator nor the
row separator, so the tab-delimited format can represent it verbatim. -/
def cleanField (f : List Char) : Prop :=
  tabChar ∉ f ∧ nlChar ∉ f

instance (f : List Char) : Decidable (cleanField f) :=
  inferInstanceAs (Decidable (tabChar ∉ f ∧ nlChar ∉ f))

/-!  Dynamic typing of the per-row word count.  The notebook applies
`count_words(row['value'])` to every row; `re.findall` demands a string
and raises `TypeError` on any other value (for example the float `NaN`
pandas substitutes for a missing text cell).  A table cell of the dynamic
language is either a string or such a non-string value. -/

/-- A dynamically typed table cell: a text value, or a non-string value
such as the float `NaN` pandas loads for a missing field. -/
inductive PyCell where
  | str (s : String)
  | nonStr
deriving DecidableEq, Repr

/-- `count_words` as applied to a dynamically typed cell: on a string it
returns the match count, on any non-string value `re.findall` raises
`TypeError` (modelled as `Except.error`). -/
def count_words_cell : PyCell → Except String Nat
  | .str s => .ok (count_words s)
  | .nonStr => .error "TypeError"

/-- The derived column `df_fn['fn_length'] = df_fn.apply(lambda row:
count_words(row['value']), axis=1)`: `count_words` applied to the `value`
cell of every row in order; the whole apply fails as soon as one cell is
not a string. -/
def fn_length_column : List PyCell → Except String (List Nat)
  | [] => .ok []
  | c :: cs =>
    match count_words_cell c with
    | .error e => .error e
    | .ok n =>
      match fn_length_column cs with
      | .error e => .error e
      | .ok ns => .ok (n :: ns)


/-!  Concrete data of the spec's scenario (section 8): two submissions, of
which only `A1` is a 10-K, and one accounting-policies text observation per
submission.  Used to instantiate hypotheses of the theorems below on a
concrete input. -/

/-- Scenario submission `A1`, a 10-K filing. -/
def subA1 : SubRecord :=
  ⟨"A1", "1", "Co1", "100", "10-K", "20201231", "20210115"⟩

/-- Scenario submission `A2`, an 8-K filing (not in the allow-list). -/
def subA2 : SubRecord :=
  ⟨"A2", "2", "Co2", "200", "8-K", "20201231", "20210116"⟩

/-- Scenario observation for `A1` with an allow-listed tag. -/
def txtA1 : TxtRecord :=
  ⟨"A1", "SignificantAccountingPoliciesTextBlock", "0", "20201231",
    "Text one."⟩

/-- Scenario observation for `A2` with an allow-listed tag. -/
def txtA2 : TxtRecord :=
  ⟨"A2", "SignificantAccountingPoliciesTextBlock", "0", "20201231",
    "Text two."⟩

/-- Scenario submissions table. -/
def scenarioSubs : List SubRecord := [subA1, subA2]

/-- Scenario observations table. -/
def scenarioTxts : List TxtRecord := [txtA1, txtA2]

/-- Scenario form-type allow-list (the notebook's `form_types`). -/
def scenarioForms : List String := ["10-K", "10-K/A"]

/-- Scenario tag allow-list. -/
def scenarioTags : List String := ["SignificantAccountingPoliciesTextBlock"]

/-!  Theorems. -/

/-- C1: every record in the output of `buildFootnoteTable` (the
filter/merge/filter pipeline) has its `form` field a member of the
form-type allow-list and its `tag` field a member of the tag allow-list;
no output row violates either constraint. -/
theorem filter_correctness (df_sub : List SubRecord) (df_txt : List TxtRecord)
    (form_types footnote_tags : List String) (r : FnRecord)
    (hr : r ∈ buildFootnoteTable df_sub df_txt form_types footnote_tags) :
    r.form ∈ form_types ∧ r.tag ∈ footnote_tags := by
  simp only [buildFootnoteTable, df_fn, df_txt_filtered, df_sub_filtered,
    List.mem_filter, List.mem_flatMap, List.mem_map,
    decide_eq_true_eq] at hr
  obtain ⟨⟨s, ⟨_, hform⟩, t, _, rfl⟩, htag⟩ := hr
  exact ⟨hform, htag⟩

/-- Witness for C1 on the spec's scenario data: the single output row of
the scenario satisfies both membership constraints. -/
theorem filter_correctness_witness :
    (joinRow subA1 txtA1 ∈
      buildFootnoteTable scenarioSubs scenarioTxts scenarioForms
        scenarioTags) ∧
    ((joinRow subA1 txtA1).form ∈ scenarioForms ∧
      (joinRow subA1 txtA1).tag ∈ scenarioTags) :=
  ⟨by decide,
    filter_correctness scenarioSubs scenarioTxts scenarioForms scenarioTags
      (joinRow subA1 txtA1) (by decide)⟩

/-- Auxiliary: the scan's value does not depend on the fuel once the fuel
covers the remaining characters (every step consumes at least one), so
`count_words`, which starts the scan with fuel equal to the string's
length, computes the fuel-free scan. -/
theorem scanCount_fuel_irrel : ∀ (fuel fuel' : Nat) (prev : Option Char)
    (l : List Char), l.length ≤ fuel → l.length ≤ fuel' →
    scanCount fuel prev l = scanCount fuel' prev l := by
  intro fuel
  induction fuel with
  | zero =>
    intro fuel' prev l hl hl'
    have : l = [] := List.eq_nil_of_length_eq_zero (Nat.le_zero.mp hl)
    subst this
    cases fuel' <;> rfl
  | succ fuel ih =>
    intro fuel' prev l hl hl'
    cases l with
    | nil => cases fuel' <;> rfl
    | cons c cs =>
      cases fuel' with
      | zero => exact absurd hl' (by simp)
      | succ fuel'' =>
        simp only [scanCount]
        split
        · cases hm : matchLen (c :: cs) with
          | none =>
            exact ih fuel'' (some c) cs
              (by simpa using Nat.le_of_succ_le_succ (by simpa using hl))
              (by simpa using Nat.le_of_succ_le_succ (by simpa using hl'))
          | some n =>
            have h1 : (cs.drop (n - 1)).length ≤ fuel := by
              have := Nat.le_of_succ_le_succ (by simpa using hl)
              simp [List.length_drop]
              omega
            have h2 : (cs.drop (n - 1)).length ≤ fuel'' := by
              have := Nat.le_of_succ_le_succ (by simpa using hl')
              simp [List.length_drop]
              omega
            exact congrArg (fun x => 1 + x) (ih fuel''
              ((c :: cs).take n).getLast? (cs.drop (n - 1)) h1 h2)
        · exact ih fuel'' (some c) cs
            (by simpa using Nat.le_of_succ_le_succ (by simpa using hl))
            (by simpa using Nat.le_of_succ_le_succ (by simpa using hl'))

/-- C3 counterexample: the claim asserts `count_words("state-of-the-art
solution") = 3`, but the regex `\b[a-zA-Z'-]+\b` includes the hyphen in
its character class, so `state-of-the-art` is a single match and the count
is 2, not 3. -/
theorem count_words_hyphen_counterexample :
    count_words "state-of-the-art solution" = 2 ∧
    count_words "state-of-the-art solution" ≠ 3 := by
  decide

/-- C3 amended: the reference vectors as the code actually computes them:
the empty string has 0 words, `state-of-the-art solution` has 2 words
(`state-of-the-art` is one maximal run of letters and hyphens), and
`the company's plan` has 3 words (`company's` is one run containing the
apostrophe).  Determinism across repeated calls is immediate:
`count_words` is a function of the input string alone. -/
theorem count_words_reference_vectors :
    count_words "" = 0 ∧
    count_words "state-of-the-art solution" = 2 ∧
    count_words (String.mk ['t', 'h', 'e', ' ', 'c', 'o', 'm', 'p', 'a',
      'n', 'y', apos, 's', ' ', 'p', 'l', 'a', 'n']) = 3 := by
  decide

/-- C4 counterexample: with no local archive and a 404 response, the
source raises nothing — the body of `if req.status_code == 200:` is
skipped and the call returns normally (`ok`) after one request, writing
and extracting nothing; it does not fail with an error carrying the
status, contrary to the claim. -/
theorem fetch_no_error_counterexample :
    download_xbrl_fin_notes 404 ⟨false, false⟩ =
      .ok (⟨false, false⟩, ⟨1, false, false⟩) ∧
    download_xbrl_fin_notes 404 ⟨false, false⟩ ≠ .error 404 := by
  constructor
  · rfl
  · intro h
    simp [download_xbrl_fin_notes] at h

/-- C4 amended: when the archive is absent and the HTTP status is not
200, the call issues exactly one request (no retry), performs no file
write and no extraction, and returns normally; the non-success response
is silently ignored rather than surfaced as an error. -/
theorem fetch_nonsuccess_silent (status : Nat) (st : FetchState)
    (h1 : st.archiveExists = false) (h2 : status ≠ 200) :
    download_xbrl_fin_notes status st = .ok (st, ⟨1, false, false⟩) := by
  simp [download_xbrl_fin_notes, h1, h2]

/-- Witness for the amended C4 at status 404 from an empty filesystem. -/
theorem fetch_nonsuccess_silent_witness :
    (⟨false, false⟩ : FetchState).archiveExists = false ∧ (404 : Nat) ≠ 200 ∧
    download_xbrl_fin_notes 404 ⟨false, false⟩ =
      .ok (⟨false, false⟩, ⟨1, false, false⟩) :=
  ⟨rfl, by decide, fetch_nonsuccess_silent 404 ⟨false, false⟩ rfl (by decide)⟩

/-- C5 counterexample: when the first download fails (status 404) nothing
is written, so a second call for the same (year, month) issues a second
request — two calls are not limited to one network operation. -/
theorem fetch_twice_two_requests_counterexample :
    (fetchTwice 404 404 ⟨false, false⟩).1.requests = 1 ∧
    (fetchTwice 404 404 ⟨false, false⟩).2.1.requests = 1 ∧
    ¬((fetchTwice 404 404 ⟨false, false⟩).1.requests +
        (fetchTwice 404 404 ⟨false, false⟩).2.1.requests ≤ 1) := by
  decide

/-- C5 amended: provided the first call succeeds (status 200) or the
archive already exists, two calls for the same (year, month) perform at
most one request in total, and the second call performs no network
activity, no write and no extraction, leaving the state of the first call
unchanged.  (The Python function returns `None` on every call, so both
calls trivially return the same value; no directory path is returned.) -/
theorem fetch_idempotent (status1 status2 : Nat) (st : FetchState)
    (h : status1 = 200 ∨ st.archiveExists = true) :
    (fetchTwice status1 status2 st).1.requests +
      (fetchTwice status1 status2 st).2.1.requests ≤ 1 ∧
    (fetchTwice status1 status2 st).2.1 = ⟨0, false, false⟩ := by
  obtain ⟨a, d⟩ := st
  rcases h with rfl | h
  · cases a <;> simp [fetchTwice, download_xbrl_fin_notes]
  · simp only at h
    subst h
    simp [fetchTwice, download_xbrl_fin_notes]

/-- Witness for the amended C5: first call succeeds from an empty
filesystem, the second call is a no-op. -/
theorem fetch_idempotent_witness :
    ((200 : Nat) = 200 ∨ (⟨false, false⟩ : FetchState).archiveExists = true) ∧
    ((fetchTwice 200 404 ⟨false, false⟩).1.requests +
        (fetchTwice 200 404 ⟨false, false⟩).2.1.requests ≤ 1 ∧
      (fetchTwice 200 404 ⟨false, false⟩).2.1 = ⟨0, false, false⟩) :=
  ⟨Or.inl rfl, fetch_idempotent 200 404 ⟨false, false⟩ (Or.inl rfl)⟩

/-- C9: the existence guard of `download_xbrl_fin_notes` tests only the
archive file.  Whenever the archive exists the call has no effect at all —
no request, no write, no extraction — for every HTTP status and for
either state of the extraction directory; in particular with
`dirExists = false` the directory is still missing afterwards, so its
presence is not a postcondition. -/
theorem guard_tests_only_archive (status : Nat) (d : Bool) :
    download_xbrl_fin_notes status ⟨true, d⟩ =
      .ok (⟨true, d⟩, ⟨0, false, false⟩) := by
  simp [download_xbrl_fin_notes]

/-- C10: the merged output's columns are, in order, the seven retained
submission columns followed by the retained non-key observation columns,
with the shared key `adsh` exactly once; appending the derived column
puts `fn_length` last; and every joined record carries exactly one field
per merged column. -/
theorem column_order :
    mergedColumns = ["adsh", "cik", "name", "sic", "form", "period",
      "filed", "tag", "qtrs", "ddate", "value"] ∧
    mergedColumns.count "adsh" = 1 ∧
    (mergedColumns ++ ["fn_length"]).getLast? = some "fn_length" ∧
    ∀ r : FnRecord, r.toFields.length = mergedColumns.length :=
  ⟨by decide, by decide, by decide, fun _ => rfl⟩

/-- C8: the per-row word count is defined only on strings.  On a table
whose `value` cells are all strings, the derived column is computed and
has one (non-negative, `Nat`-valued) entry per row; as soon as one cell
is a non-string value (for example a missing text loaded as a float
`NaN`), `re.findall` raises `TypeError` and the whole apply fails instead
of returning a count. -/
theorem count_words_requires_string (cells : List PyCell) :
    ((∀ c ∈ cells, ∃ s, c = PyCell.str s) →
      ∃ ns, fn_length_column cells = .ok ns ∧ ns.length = cells.length) ∧
    (PyCell.nonStr ∈ cells → fn_length_column cells = .error "TypeError") := by
  induction cells with
  | nil =>
    refine ⟨fun _ => ⟨[], rfl, rfl⟩, fun h => absurd h (by simp)⟩
  | cons c rest ih =>
    constructor
    · intro h
      obtain ⟨s, rfl⟩ := h c (List.mem_cons_self c rest)
      obtain ⟨ns, hns, hlen⟩ :=
        ih.1 (fun x hx => h x (List.mem_cons_of_mem _ hx))
      exact ⟨count_words s :: ns,
        by simp [fn_length_column, count_words_cell, hns], by simp [hlen]⟩
    · intro h
      rcases List.mem_cons.mp h with rfl | hmem
      · rfl
      · cases c with
        | str s => simp [fn_length_column, count_words_cell, ih.2 hmem]
        | nonStr => rfl

/-- Witness for C8: a two-string table yields a two-entry column; the same
table with a `NaN` cell appended makes the apply raise. -/
theorem count_words_requires_string_witness :
    (∃ ns, fn_length_column [.str "Text one.", .str ""] = .ok ns ∧
      ns.length = 2) ∧
    fn_length_column [.str "Text one.", .nonStr] = .error "TypeError" :=
  ⟨(count_words_requires_string [.str "Text one.", .str ""]).1
      (by intro c hc
          rcases List.mem_cons.mp hc with rfl | hc
          · exact ⟨"Text one.", rfl⟩
          · rcases List.mem_cons.mp hc with rfl | hc
            · exact ⟨"", rfl⟩
            · exact absurd hc (by simp)),
    (count_words_requires_string [.str "Text one.", .nonStr]).2 (by simp)⟩

/-- Auxiliary: the length of a filter by a disjunction of two pointwise
mutually exclusive tests is the sum of the two filters' lengths. -/
theorem length_filter_or_disjoint {α : Type} (p q : α → Bool) (l : List α)
    (h : ∀ a ∈ l, ¬(p a = true ∧ q a = true)) :
    (l.filter (fun a => p a || q a)).length =
      (l.filter p).length + (l.filter q).length := by
  induction l with
  | nil => rfl
  | cons a l ih =>
    have hd := h a (List.mem_cons_self a l)
    have ht : ∀ x ∈ l, ¬(p x = true ∧ q x = true) := fun x hx =>
      h x (List.mem_cons_of_mem _ hx)
    cases hp : p a
    · cases hq : q a
      · simp [List.filter_cons, hp, hq, ih ht]
      · simp only [List.filter_cons, hp, hq, Bool.false_or]
        simp [ih ht]
        omega
    · cases hq : q a
      · simp only [List.filter_cons, hp, hq, Bool.true_or]
        simp [ih ht]
        omega
      · exact absurd ⟨hp, hq⟩ hd

/-- Auxiliary: when the submission accession keys are pairwise distinct,
the inner merge with the observations has exactly one output row per
observation row whose key occurs among the submissions. -/
theorem df_txt_filtered_length_of_nodup (subs : List SubRecord)
    (O : List TxtRecord) (h : (subs.map SubRecord.adsh).Nodup) :
    (df_txt_filtered subs O).length =
      (O.filter (fun o =>
        decide (o.adsh ∈ subs.map SubRecord.adsh))).length := by
  induction subs with
  | nil => simp [df_txt_filtered]
  | cons s rest ih =>
    rw [List.map_cons, List.nodup_cons] at h
    obtain ⟨hs, hrest⟩ := h
    have hsplit :
        O.filter (fun o => decide (o.adsh ∈ s.adsh :: rest.map SubRecord.adsh))
          = O.filter (fun o => (o.adsh == s.adsh) ||
              decide (o.adsh ∈ rest.map SubRecord.adsh)) := by
      apply List.filter_congr
      intro o _
      rw [Bool.eq_iff_iff]
      simp [List.mem_cons]
    rw [List.map_cons] at *
    rw [hsplit]
    rw [length_filter_or_disjoint _ _ O
      (fun o _ hoq => hs (by
        have := of_decide_eq_true hoq.2
        rwa [← (beq_iff_eq (a := o.adsh) (b := s.adsh)).mp hoq.1]))]
    simp only [df_txt_filtered, List.flatMap_cons, List.length_append,
      List.length_map]
    rw [show (rest.flatMap fun s =>
        (O.filter fun t => t.adsh == s.adsh).map (joinRow s)) =
        df_txt_filtered rest O from rfl, ih hrest]

/-- C2: with pairwise distinct submission accession keys (the spec's data
model: a submission is identified by a unique accession key), the inner
join of the form-filtered submissions with the observations has exactly
as many rows as there are observation rows whose accession key occurs in
the filtered submission set — the join fabricates no rows and drops none
beyond inner-join semantics. -/
theorem join_cardinality (S : List SubRecord) (O : List TxtRecord)
    (form_types : List String) (h : (S.map SubRecord.adsh).Nodup) :
    (df_txt_filtered (df_sub_filtered S form_types) O).length =
      (O.filter (fun o =>
        decide (o.adsh ∈
          (df_sub_filtered S form_types).map SubRecord.adsh))).length := by
  apply df_txt_filtered_length_of_nodup
  exact ((List.filter_sublist S).map SubRecord.adsh).nodup h

/-- Witness for C2 on the spec's scenario data (distinct keys `A1`, `A2`;
only `A1` survives the form filter; one of the two observation rows
carries key `A1`). -/
theorem join_cardinality_witness :
    (scenarioSubs.map SubRecord.adsh).Nodup ∧
    (df_txt_filtered (df_sub_filtered scenarioSubs scenarioForms)
        scenarioTxts).length =
      (scenarioTxts.filter (fun o =>
        decide (o.adsh ∈
          (df_sub_filtered scenarioSubs scenarioForms).map
            SubRecord.adsh))).length :=
  ⟨by decide,
    join_cardinality scenarioSubs scenarioTxts scenarioForms (by decide)⟩

/-- Auxiliary: a joined record determines both constituent rows except for
the observation's accession key, which the merge replaces by the (equal)
submission key. -/
theorem joinRow_eq_iff (s' s : SubRecord) (t' t : TxtRecord) :
    joinRow s' t' = joinRow s t ↔
      (s' = s ∧ t'.tag = t.tag ∧ t'.qtrs = t.qtrs ∧ t'.ddate = t.ddate ∧
        t'.value = t.value) := by
  cases s'; cases s; cases t'; cases t
  simp only [joinRow, FnRecord.mk.injEq, SubRecord.mk.injEq]
  tauto

/-- Auxiliary: a merge block of a submission different from `s`
contributes no copy of `joinRow s t`. -/
theorem count_block_ne (s' s : SubRecord) (t : TxtRecord)
    (O : List TxtRecord) (p : TxtRecord → Bool) (hne : s' ≠ s) :
    ((O.filter p).map (joinRow s')).count (joinRow s t) = 0 := by
  rw [List.count_eq_zero]
  intro hmem
  obtain ⟨t', _, heq⟩ := List.mem_map.mp hmem
  exact hne ((joinRow_eq_iff s' s t' t).mp heq).1

/-- Auxiliary: the merge block of `s` holds exactly one copy of
`joinRow s t` per copy of `t` in the observation table, when `t` matches
the key of `s` and carries an allow-listed tag. -/
theorem count_block_eq (s : SubRecord) (t : TxtRecord) (tgs : List String)
    (O : List TxtRecord) (hadsh : t.adsh = s.adsh) (htag : t.tag ∈ tgs) :
    ((O.filter (fun u => (u.adsh == s.adsh) && decide (u.tag ∈ tgs))).map
        (joinRow s)).count (joinRow s t) = O.count t := by
  induction O with
  | nil => rfl
  | cons u O' ih =>
    simp only [List.filter_cons]
    by_cases hu : u = t
    · subst hu
      rw [if_pos (by simp [hadsh, htag]), List.map_cons,
        List.count_cons_self, List.count_cons_self, ih]
    · by_cases hp : ((u.adsh == s.adsh) && decide (u.tag ∈ tgs)) = true
      · have hadu : u.adsh = s.adsh ∧ u.tag ∈ tgs := by
          simpa using hp
        have hut : joinRow s t ≠ joinRow s u := by
          intro heq
          obtain ⟨-, h1, h2, h3, h4⟩ := (joinRow_eq_iff s s t u).mp heq
          apply hu
          obtain ⟨hadu, -⟩ := hadu
          cases u
          cases t
          simp_all
        rw [if_pos hp, List.map_cons, List.count_cons_of_ne hut, ih,
          List.count_cons_of_ne (fun h => hu h.symm)]
      · rw [if_neg hp, ih, List.count_cons_of_ne (fun h => hu h.symm)]

/-- Auxiliary: over any submission list, the tag-filtered merge holds one
copy of `joinRow s t` per copy of `s` among the submissions and per copy
of `t` among the observations (the joined record pins down all seven
submission fields, so distinct submissions contribute nothing). -/
theorem count_flatMap_blocks (subs : List SubRecord) (O : List TxtRecord)
    (tgs : List String) (s : SubRecord) (t : TxtRecord)
    (hadsh : t.adsh = s.adsh) (htag : t.tag ∈ tgs) :
    (subs.flatMap (fun x =>
        (O.filter (fun u => (u.adsh == x.adsh) && decide (u.tag ∈ tgs))).map
          (joinRow x))).count (joinRow s t) =
      subs.count s * O.count t := by
  induction subs with
  | nil => simp
  | cons x rest ih =>
    rw [List.flatMap_cons, List.count_append, ih]
    by_cases hxs : x = s
    · subst hxs
      rw [count_block_eq x t tgs O hadsh htag, List.count_cons_self]
      ring
    · rw [count_block_ne x s t O _ hxs,
        List.count_cons_of_ne (fun h => hxs h.symm)]
      omega

/-- C6: the output of the pipeline is a deterministic function of its
inputs with a fixed order: it equals the concatenation, over the retained
submissions in left-table order, of that submission's matching
observations in their original order (restricted to allow-listed tags) —
no sorting is introduced.  Moreover no deduplication is performed: each
output row `joinRow s t` occurs once per copy of `s` among the retained
submissions and per copy of `t` among the observations, so duplicate
observation rows propagate to the output. -/
theorem deterministic_order_no_dedup (S : List SubRecord)
    (O : List TxtRecord) (form_types footnote_tags : List String) :
    buildFootnoteTable S O form_types footnote_tags =
      (df_sub_filtered S form_types).flatMap (fun s =>
        (O.filter (fun t =>
          (t.adsh == s.adsh) && decide (t.tag ∈ footnote_tags))).map
          (joinRow s)) ∧
    ∀ s t, t.adsh = s.adsh → t.tag ∈ footnote_tags →
      (buildFootnoteTable S O form_types footnote_tags).count (joinRow s t) =
        (df_sub_filtered S form_types).count s * O.count t := by
  have horder : buildFootnoteTable S O form_types footnote_tags =
      (df_sub_filtered S form_types).flatMap (fun s =>
        (O.filter (fun t =>
          (t.adsh == s.adsh) && decide (t.tag ∈ footnote_tags))).map
          (joinRow s)) := by
    rw [buildFootnoteTable, df_fn, df_txt_filtered, List.filter_flatMap]
    congr 1
    funext s
    rw [List.filter_map, List.filter_filter]
    congr 1
    apply List.filter_congr
    intro t _
    exact Bool.and_comm _ _
  exact ⟨horder, fun s t hadsh htag => by
    rw [horder]
    exact count_flatMap_blocks (df_sub_filtered S form_types) O
      footnote_tags s t hadsh htag⟩

/-- Witness for C6 on the spec's scenario data: the output holds exactly
one copy of the joined `A1` row (one retained `A1` submission, one `A1`
observation). -/
theorem deterministic_order_no_dedup_witness :
    (txtA1.adsh = subA1.adsh ∧ txtA1.tag ∈ scenarioTags) ∧
    (buildFootnoteTable scenarioSubs scenarioTxts scenarioForms
        scenarioTags).count (joinRow subA1 txtA1) =
      (df_sub_filtered scenarioSubs scenarioForms).count subA1 *
        scenarioTxts.count txtA1 :=
  ⟨⟨rfl, by decide⟩,
    (deterministic_order_no_dedup scenarioSubs scenarioTxts scenarioForms
        scenarioTags).2 subA1 txtA1 rfl (by decide)⟩

/-- Auxiliary: splitting a concatenation whose first part is free of the
separator prepends that part to the first segment of the remainder. -/
theorem splitOnChar_append (sep : Char) (f rest : List Char)
    (hf : sep ∉ f) (g : List Char) (gs : List (List Char))
    (hrest : splitOnChar sep rest = g :: gs) :
    splitOnChar sep (f ++ rest) = (f ++ g) :: gs := by
  induction f with
  | nil => simpa using hrest
  | cons c f' ih =>
    have hc : ¬((c == sep) = true) := by
      simp only [beq_iff_eq]
      intro hh
      exact hf (by simp [hh])
    have ih' := ih (fun hm => hf (List.mem_cons_of_mem _ hm))
    rw [List.cons_append]
    simp only [splitOnChar]
    rw [if_neg hc, ih']
    rfl

/-- Auxiliary: splitting on the separator is a left inverse of joining
with it, for a nonempty list of separator-free segments. -/
theorem splitOnChar_joinSep (sep : Char) (fs : List (List Char))
    (hne : fs ≠ []) (hclean : ∀ f ∈ fs, sep ∉ f) :
    splitOnChar sep (joinSep sep fs) = fs := by
  induction fs with
  | nil => exact absurd rfl hne
  | cons f fs' ih =>
    cases fs' with
    | nil =>
      rw [joinSep, ← List.append_nil f,
        splitOnChar_append sep f [] (by
          simpa using hclean f (List.mem_cons_self f [])) [] [] rfl]
    | cons g gs =>
      have hrest : splitOnChar sep (sep :: joinSep sep (g :: gs)) =
          [] :: (g :: gs) := by
        simp only [splitOnChar]
        rw [if_pos (by simp),
          ih (List.cons_ne_nil g gs)
            (fun x hx => hclean x (List.mem_cons_of_mem _ hx))]
      have hj : joinSep sep (f :: g :: gs) =
          f ++ sep :: joinSep sep (g :: gs) := rfl
      rw [hj, splitOnChar_append sep f (sep :: joinSep sep (g :: gs))
        (hclean f (List.mem_cons_self f _)) [] (g :: gs) hrest]
      simp

/-- Auxiliary: a character distinct from the separator and absent from
every segment is absent from the joined list. -/
theorem not_mem_joinSep (sep sep2 : Char) (fs : List (List Char))
    (hne : sep ≠ sep2) (h : ∀ f ∈ fs, sep ∉ f) :
    sep ∉ joinSep sep2 fs := by
  induction fs with
  | nil => simp [joinSep]
  | cons f fs' ih =>
    cases fs' with
    | nil => simpa [joinSep] using h f (List.mem_cons_self f [])
    | cons g gs =>
      have hj : joinSep sep2 (f :: g :: gs) =
          f ++ sep2 :: joinSep sep2 (g :: gs) := rfl
      rw [hj]
      intro hmem
      rcases List.mem_append.mp hmem with hm | hm
      · exact h f (List.mem_cons_self f _) hm
      · rcases List.mem_cons.mp hm with rfl | hm
        · exact hne rfl
        · exact ih (fun x hx => h x (List.mem_cons_of_mem _ hx)) hm

/-- C7: round trip of the Writer and the Table Loader.  Writing an
ordered sequence of joined records (as the notebook does before the
`fn_length` column is added) and re-loading the file projected to the
same eleven columns yields row-for-row equal data, provided every field
is representable in the tab-delimited format (contains neither a tab nor
a newline). -/
theorem write_load_round_trip (rows : List FnRecord)
    (hclean : ∀ r ∈ rows, ∀ f ∈ FnRecord.toFields r, cleanField f) :
    loadTable (mergedColumns.map String.data)
        (writeTable (mergedColumns.map String.data)
          (rows.map FnRecord.toFields)) =
      .ok (rows.map FnRecord.toFields) := by
  have hnl_tab : nlChar ≠ tabChar := by decide
  have hhdr_clean : ∀ f ∈ mergedColumns.map String.data,
      tabChar ∉ f ∧ nlChar ∉ f := by decide
  have hlines : splitOnChar nlChar
      (writeTable (mergedColumns.map String.data)
        (rows.map FnRecord.toFields)) =
      ((mergedColumns.map String.data) :: rows.map FnRecord.toFields).map
        (joinSep tabChar) := by
    simp only [writeTable]
    apply splitOnChar_joinSep
    · simp
    · intro line hline
      rcases List.mem_map.mp hline with ⟨fields, hfm, rfl⟩
      apply not_mem_joinSep _ _ _ hnl_tab
      intro f hf
      rcases List.mem_cons.mp hfm with rfl | hfm
      · exact (hhdr_clean f hf).2
      · rcases List.mem_map.mp hfm with ⟨r, hr, rfl⟩
        exact (hclean r hr f hf).2
  have hheader : splitOnChar tabChar
      (joinSep tabChar (mergedColumns.map String.data)) =
      mergedColumns.map String.data := by
    apply splitOnChar_joinSep
    · simp [mergedColumns, subColumns]
    · exact fun f hf => (hhdr_clean f hf).1
  have hidx : (mergedColumns.map String.data).mapM
      (fun c => (mergedColumns.map String.data).findIdx?
        (fun x => x == c)) =
      some [0, 1, 2, 3, 4, 5, 6, 7, 8, 9, 10] := by decide
  simp only [loadTable]
  rw [hlines]
  simp only [List.map_cons, hheader, hidx]
  rw [List.map_map, List.map_map]
  congr 1
  apply List.map_congr_left
  intro r hr
  have hfields : splitOnChar tabChar (joinSep tabChar
      (FnRecord.toFields r)) = FnRecord.toFields r := by
    apply splitOnChar_joinSep
    · simp [FnRecord.toFields]
    · exact fun f hf => (hclean r hr f hf).1
  simp only [Function.comp]
  rw [hfields]
  rfl

/-- Witness for C7: the scenario's single output row round-trips through
the written file. -/
theorem write_load_round_trip_witness :
    (∀ r ∈ [joinRow subA1 txtA1], ∀ f ∈ FnRecord.toFields r,
      cleanField f) ∧
    loadTable (mergedColumns.map String.data)
        (writeTable (mergedColumns.map String.data)
          ([joinRow subA1 txtA1].map FnRecord.toFields)) =
      .ok ([joinRow subA1 txtA1].map FnRecord.toFields) :=
  ⟨by decide, write_load_round_trip [joinRow subA1 txtA1] (by decide)⟩
